/-
Verification of the Pinocchio prover/verifier pipeline of go-snark
(src/proof/pinocchio.go) against its natural-language specification.

The file shallowly embeds the code: the scalar field Fr and polynomial
arithmetic are modelled concretely (the fields/r1csqap packages are not part
of the staged sources, so they are modelled from the spec, §4.1/§4.4); the
curve groups and the pairing are abstracted into a bundle of operations
mirroring the Utils.Bn interface, so theorems about Init/Generate/Verify
hold for every interpretation of the group operations.  A concrete Jacobian
model of G1 (spec §4.2) instantiates the bundle where concrete evaluation
is needed.  Go panics (out-of-range indexing) are modelled by Option:
a function returns none exactly where the Go code would panic.
-/
import Mathlib

namespace GoSnark

/-- Modelled from the spec: the BN254 base-field modulus q (§6). -/
def qBN : Nat := 21888242871839275222246405745257275088696311157297823662689037894645226208583

/-- Modelled from the spec: the curve-subgroup scalar modulus r (§6). -/
def rBN : Nat := 21888242871839275222246405745257275088548364400416034343698204186575808495617

/-- Modelled from the spec: the base field Fq, integers mod q (§3). -/
abbrev Fq := ZMod qBN

/-- Modelled from the spec: the scalar field Fr = FqR, integers mod r (§3).
Every arithmetic operation of the fields package reduces mod r; `ZMod rBN`
carries exactly that arithmetic. -/
abbrev Fr := ZMod rBN

instance : Fact (1 < rBN) := ⟨by decide⟩

/-- Modelled from the spec: a polynomial over Fr as its coefficient list,
index i holding the coefficient of x^i (§3). -/
abbrev Poly := List Fr

namespace PF

/-- Modelled from the spec: coefficient-wise polynomial addition (§4.4);
the tail of the longer argument is kept. -/
def addPoly : Poly → Poly → Poly
  | [], q => q
  | p, [] => p
  | a :: p, b :: q => (a + b) :: addPoly p q

/-- Modelled from the spec: schoolbook polynomial multiplication (§4.4),
in Horner form: (a + x·p)·q = a·q + x·(p·q). -/
def mulL : Poly → Poly → Poly
  | [], _ => []
  | a :: p, q => addPoly (q.map fun b => a * b) (0 :: mulL p q)

/-- Modelled from the spec: normalization strips trailing zero
coefficients (§3, §4.4). -/
def normPoly : Poly → Poly
  | [] => []
  | a :: p =>
    match normPoly p with
    | [] => if a = 0 then [] else [a]
    | b :: q => a :: b :: q

/-- Modelled from the spec: polynomial multiplication followed by
normalization (§4.4). -/
def Mul (p q : Poly) : Poly := normPoly (mulL p q)

/-- Modelled from the spec: evaluation at a point by Horner's rule (§4.4). -/
def Eval (p : Poly) (x : Fr) : Fr := p.foldr (fun c acc => c + x * acc) 0

/-- Modelled from the spec: pointwise polynomial subtraction (§4.4). -/
def polySub (p q : Poly) : Poly := addPoly p (q.map fun a => -a)

/-- Modelled from the spec: the monomial c·x^k as a coefficient list. -/
def monomialL (k : Nat) (c : Fr) : Poly := List.replicate k 0 ++ [c]

/-- Modelled from the spec: one long-division loop (§4.4), fuelled: while
the remainder's degree is at least the divisor's, cancel the leading term. -/
def polyDivModAux (z : Poly) : Nat → Poly → Poly → Poly × Poly
  | 0, quo, rem => (quo, normPoly rem)
  | fuel + 1, quo, rem =>
    let r := normPoly rem
    if r.length < z.length ∨ z.length = 0 then (quo, r)
    else
      let dz := z.length - 1
      let dr := r.length - 1
      let c := r.getD dr 0 * (z.getD dz 0)⁻¹
      let t := monomialL (dr - dz) c
      polyDivModAux z fuel (addPoly quo t) (polySub r (Mul t z))

/-- Modelled from the spec: long division returning quotient and
remainder (§4.4). -/
def polyDivMod (p z : Poly) : Poly × Poly :=
  polyDivModAux z ((normPoly p).length + 1) [] p

/-- Modelled from the spec: DivisorPolynomial(p, Z) returns the quotient h
of the long division p / Z; the remainder is dropped, the caller is
responsible for ensuring divisibility (§4.4). -/
def DivisorPolynomial (p z : Poly) : Poly := (polyDivMod p z).1

end PF

/-- Modelled from the spec: the G1 interface of the curve package (§4.2):
the generator, the zero triple (F.Zero coordinates, a point at infinity
representation), addition, scalar multiplication by an Fr scalar, and
affine conversion. -/
structure G1OpsT (P1 : Type) where
  G : P1
  FZero : P1
  Add : P1 → P1 → P1
  MulScalar : P1 → Fr → P1
  Affine : P1 → P1

/-- Modelled from the spec: the G2 interface of the curve package (§4.2). -/
structure G2OpsT (P2 : Type) where
  G : P2
  Add : P2 → P2 → P2
  MulScalar : P2 → Fr → P2

/-- Modelled from the spec: the Utils.Bn bundle (§4.2, §4.3, §9): the two
curve groups, the Fq2 equality used on G1 triples, the Fq6 zero used to
initialize a G2 accumulator, Fq12 equality and multiplication on pairing
outputs, and the pairing map. -/
structure BnT (P1 P2 PT : Type) where
  G1 : G1OpsT P1
  G2 : G2OpsT P2
  Fq6Zero : P2
  Fq2Equal : P1 → P1 → Bool
  Fq12Equal : PT → PT → Bool
  Fq12Mul : PT → PT → PT
  Pairing : P1 → P2 → PT

/-- Modelled from the spec: the compiled circuit summary handed to the
proof layer (§3, §6): the signal list and the counts NPublic and NVars. -/
structure Circuit where
  Signals : List Unit
  NPublic : Nat
  NVars : Nat

/-- Toxic trusted-setup scalars (pinocchio.go lines 14-24).  Randomness is
modelled by passing the sampled values in; RhoC is derived by Init. -/
structure ToxicT where
  T : Fr
  Ka : Fr
  Kb : Fr
  Kc : Fr
  Kbeta : Fr
  Kgamma : Fr
  RhoA : Fr
  RhoB : Fr
  RhoC : Fr

/-- Proving key (pinocchio.go lines 29-38). -/
structure PkT (P1 P2 : Type) where
  A : List P1
  B : List P2
  C : List P1
  Kp : List P1
  Ap : List P1
  Bp : List P1
  Cp : List P1
  Z : Poly

/-- Verifying key (pinocchio.go lines 39-48). -/
structure VkT (P1 P2 : Type) where
  Vka : P2
  Vkb : P1
  Vkc : P2
  IC : List P1
  G1Kbg : P1
  G2Kbg : P2
  G2Kg : P2
  Vkz : P2

/-- Pinocchio setup structure (pinocchio.go lines 13-49). -/
structure PinocchioSetup (P1 P2 : Type) where
  Toxic : ToxicT
  G1T : List P1
  Pk : PkT P1 P2
  Vk : VkT P1 P2

/-- Pinocchio proof structure (pinocchio.go lines 52-61). -/
structure PinocchioProof (P1 P2 : Type) where
  PiA : P1
  PiAp : P1
  PiB : P2
  PiBp : P1
  PiC : P1
  PiCp : P1
  PiH : P1
  PiKp : P1

/-- The Proof interface value handed to Verify.  `pinocchio` carries a
Pinocchio proof; `other` — Modelled from the spec: a proof of another
system behind the same interface (the Groth16 variant, §1), on which
Verify's type assertion fails. -/
inductive ProofW (P1 P2 : Type) where
  | pinocchio (p : PinocchioProof P1 P2)
  | other

/-- The one error the staged code constructs: Verify's bad-proof-type
error (pinocchio.go line 220).  Init and Generate never build an error. -/
inductive ErrT where
  | badProofType
deriving DecidableEq

/-- RhoC := RhoA · RhoB (pinocchio.go line 108); the other toxic scalars
are the sampled inputs. -/
def mkToxic (rand : ToxicT) : ToxicT :=
  { rand with RhoC := rand.RhoA * rand.RhoB }

/-- Vk fields set before the signal loop (pinocchio.go lines 110-116). -/
def vkSet {P1 P2 PT : Type} (bn : BnT P1 P2 PT) (toxic : ToxicT)
    (vk : VkT P1 P2) : VkT P1 P2 :=
  { vk with
    Vka := bn.G2.MulScalar bn.G2.G toxic.Ka
    Vkb := bn.G1.MulScalar bn.G1.G toxic.Kb
    Vkc := bn.G2.MulScalar bn.G2.G toxic.Kc
    G1Kbg := bn.G1.MulScalar bn.G1.G (toxic.Kbeta * toxic.Kgamma)
    G2Kbg := bn.G2.MulScalar bn.G2.G (toxic.Kbeta * toxic.Kgamma)
    G2Kg := bn.G2.MulScalar bn.G2.G toxic.Kgamma }

/-- The setup state just before the signal loop: toxic scalars stored and
the six pre-loop Vk points set (pinocchio.go lines 72-116). -/
def preLoop {P1 P2 PT : Type} (bn : BnT P1 P2 PT) (rand : ToxicT)
    (s0 : PinocchioSetup P1 P2) : PinocchioSetup P1 P2 :=
  { s0 with Toxic := mkToxic rand, Vk := vkSet bn (mkToxic rand) s0.Vk }

/-- The signal loop of Init (pinocchio.go lines 118-152), one iteration per
index.  Returns the threaded setup and whether the consistency check of
lines 141-144 failed (the early `return err`); out-of-range access to the
alphas/betas/gammas is a Go panic, modelled as none. -/
def initLoop {P1 P2 PT : Type} (bn : BnT P1 P2 PT) (toxic : ToxicT)
    (alphas betas gammas : List Poly) (nPublic : Nat) :
    List Nat → PinocchioSetup P1 P2 → Option (PinocchioSetup P1 P2 × Bool)
  | [], s => some (s, false)
  | i :: is, s => do
    let ai ← alphas[i]?
    let bi ← betas[i]?
    let gi ← gammas[i]?
    let rhoAat := toxic.RhoA * PF.Eval ai toxic.T
    let a := bn.G1.MulScalar bn.G1.G rhoAat
    let s := { s with
      Pk := { s.Pk with A := s.Pk.A ++ [a] }
      Vk := { s.Vk with
        IC := if i ≤ nPublic then s.Vk.IC ++ [a] else s.Vk.IC } }
    let rhoBbt := toxic.RhoB * PF.Eval bi toxic.T
    let bg1 := bn.G1.MulScalar bn.G1.G rhoBbt
    let bg2 := bn.G2.MulScalar bn.G2.G rhoBbt
    let s := { s with Pk := { s.Pk with B := s.Pk.B ++ [bg2] } }
    let rhoCct := toxic.RhoC * PF.Eval gi toxic.T
    let c := bn.G1.MulScalar bn.G1.G rhoCct
    let s := { s with Pk := { s.Pk with C := s.Pk.C ++ [c] } }
    let kt := rhoAat + rhoBbt + rhoCct
    let k := bn.G1.Affine (bn.G1.MulScalar bn.G1.G kt)
    let ktest := bn.G1.Affine (bn.G1.Add (bn.G1.Add a bg1) c)
    if bn.Fq2Equal k ktest = false then
      some (s, true)
    else
      let s := { s with Pk := { s.Pk with
        Ap := s.Pk.Ap ++ [bn.G1.MulScalar a toxic.Ka]
        Bp := s.Pk.Bp ++ [bn.G1.MulScalar bg1 toxic.Kb]
        Cp := s.Pk.Cp ++ [bn.G1.MulScalar c toxic.Kc]
        Kp := s.Pk.Kp ++ [bn.G1.MulScalar (bn.G1.MulScalar bn.G1.G kt) toxic.Kbeta] } }
      initLoop bn toxic alphas betas gammas nPublic is s

/-- The target polynomial as Init computes it (pinocchio.go lines 154-163):
start from the constant 1 and multiply by (x − i) for i = 1 while
i < len(alphas) − 1. -/
def zpolGo (n : Nat) : Poly :=
  (List.range' 1 (n - 2)).foldl
    (fun (z : Poly) (i : Nat) => PF.Mul z [-(i : Fr), 1]) [1]

/-- The tail of the powers-of-t commitment base (pinocchio.go lines
172-175): k more entries starting from the running power tEncr. -/
def g1tLoop {P1 : Type} (g1 : G1OpsT P1) (t : Fr) : Nat → Fr → List P1
  | 0, _ => []
  | k + 1, tEncr => g1.MulScalar g1.G tEncr :: g1tLoop g1 t k (tEncr * t)

/-- The powers-of-t commitment base G1T (pinocchio.go lines 169-176):
the generator followed by len(zpol) − 1 scalar multiples. -/
def g1tGo {P1 : Type} (g1 : G1OpsT P1) (t : Fr) (lenZ : Nat) : List P1 :=
  g1.G :: g1tLoop g1 t (lenZ - 1) t

/-- The post-loop steps of Init (pinocchio.go lines 154-176): store the
target polynomial, Vkz and G1T. -/
def postLoop {P1 P2 PT : Type} (bn : BnT P1 P2 PT) (toxic : ToxicT)
    (alphas : List Poly) (s : PinocchioSetup P1 P2) : PinocchioSetup P1 P2 :=
  let zpol := zpolGo alphas.length
  { s with
    Pk := { s.Pk with Z := zpol }
    Vk := { s.Vk with
      Vkz := bn.G2.MulScalar bn.G2.G (toxic.RhoC * PF.Eval zpol toxic.T) }
    G1T := g1tGo bn.G1 toxic.T zpol.length }

/-- Init (pinocchio.go lines 69-179).  Randomness is modelled by the
sampled toxic inputs; the early `return err` of line 143 leaves the loop
with its partial state and a nil error (err is nil there); none models a
panic. -/
def Init {P1 P2 PT : Type} (bn : BnT P1 P2 PT) (cir : Circuit)
    (alphas betas gammas : List Poly) (rand : ToxicT)
    (s0 : PinocchioSetup P1 P2) :
    Option (PinocchioSetup P1 P2 × Option ErrT) :=
  match initLoop bn (mkToxic rand) alphas betas gammas cir.NPublic
      (List.range cir.Signals.length) (preLoop bn rand s0) with
  | none => none
  | some (s, true) => some (s, none)
  | some (s, false) => some (postLoop bn (mkToxic rand) alphas s, none)

/-- Init's signal loop ran to completion (the consistency check of
pinocchio.go lines 141-144 passed at every index). -/
def InitDone {P1 P2 PT : Type} (bn : BnT P1 P2 PT) (cir : Circuit)
    (alphas betas gammas : List Poly) (rand : ToxicT)
    (s0 : PinocchioSetup P1 P2) : Prop :=
  ∃ s, initLoop bn (mkToxic rand) alphas betas gammas cir.NPublic
    (List.range cir.Signals.length) (preLoop bn rand s0) = some (s, false)

/-- The private-signal loop of Generate (pinocchio.go lines 193-196):
accumulate PiA and PiAp over the given indices. -/
def loopAB {P1 P2 PT : Type} (bn : BnT P1 P2 PT) (pkA pkAp : List P1)
    (w : List Fr) : List Nat → P1 × P1 → Option (P1 × P1)
  | [], acc => some acc
  | i :: is, (pa, pap) => do
    let wi ← w[i]?
    let ai ← pkA[i]?
    let api ← pkAp[i]?
    loopAB bn pkA pkAp w is
      (bn.G1.Add pa (bn.G1.MulScalar ai wi),
       bn.G1.Add pap (bn.G1.MulScalar api wi))

/-- The all-signals loop of Generate (pinocchio.go lines 198-206):
accumulate PiB, PiBp, PiC, PiCp and PiKp over the given indices. -/
def loopMain {P1 P2 PT : Type} (bn : BnT P1 P2 PT)
    (pkB : List P2) (pkBp pkC pkCp pkKp : List P1) (w : List Fr) :
    List Nat → P2 × P1 × P1 × P1 × P1 → Option (P2 × P1 × P1 × P1 × P1)
  | [], acc => some acc
  | i :: is, (pb, pbp, pc, pcp, pkp) => do
    let wi ← w[i]?
    let bi ← pkB[i]?
    let bpi ← pkBp[i]?
    let ci ← pkC[i]?
    let cpi ← pkCp[i]?
    let kpi ← pkKp[i]?
    loopMain bn pkB pkBp pkC pkCp pkKp w is
      (bn.G2.Add pb (bn.G2.MulScalar bi wi),
       bn.G1.Add pbp (bn.G1.MulScalar bpi wi),
       bn.G1.Add pc (bn.G1.MulScalar ci wi),
       bn.G1.Add pcp (bn.G1.MulScalar cpi wi),
       bn.G1.Add pkp (bn.G1.MulScalar kpi wi))

/-- The h-commitment loop of Generate (pinocchio.go lines 209-211):
accumulate PiH from the powers-of-t base and the coefficients of h. -/
def loopH {P1 P2 PT : Type} (bn : BnT P1 P2 PT) (g1t : List P1)
    (hx : Poly) : List Nat → P1 → Option P1
  | [], acc => some acc
  | i :: is, acc => do
    let hi ← hx[i]?
    let gi ← g1t[i]?
    loopH bn g1t hx is (bn.G1.Add acc (bn.G1.MulScalar gi hi))

/-- Generate (pinocchio.go lines 182-214): all eight proof points start
from the zero triples, the three loops accumulate, the error returned is
always nil; none models a panic on out-of-range indexing. -/
def Generate {P1 P2 PT : Type} (bn : BnT P1 P2 PT)
    (setup : PinocchioSetup P1 P2) (cir : Circuit) (w : List Fr)
    (px : Poly) : Option (PinocchioProof P1 P2 × Option ErrT) := do
  let z1 := bn.G1.FZero
  let (piA, piAp) ← loopAB bn setup.Pk.A setup.Pk.Ap w
    (List.range' (cir.NPublic + 1) (cir.NVars - (cir.NPublic + 1))) (z1, z1)
  let (piB, piBp, piC, piCp, piKp) ←
    loopMain bn setup.Pk.B setup.Pk.Bp setup.Pk.C setup.Pk.Cp setup.Pk.Kp w
      (List.range cir.NVars) (bn.Fq6Zero, z1, z1, z1, z1)
  let hx := PF.DivisorPolynomial px setup.Pk.Z
  let piH ← loopH bn setup.G1T hx (List.range hx.length) z1
  some ({ PiA := piA, PiAp := piAp, PiB := piB, PiBp := piBp,
          PiC := piC, PiCp := piCp, PiH := piH, PiKp := piKp }, none)

/-- The Vkx accumulation loop of Verify (pinocchio.go lines 243-246),
starting at position i of the public signals; vk.IC[i+1] out of range is a
Go panic, modelled as none. -/
def vkxLoop {P1 P2 PT : Type} (bn : BnT P1 P2 PT) (ic : List P1) :
    Nat → List Fr → P1 → Option P1
  | _, [], acc => some acc
  | i, sg :: sgs, acc => do
    let p ← ic[i + 1]?
    vkxLoop bn ic (i + 1) sgs (bn.G1.Add acc (bn.G1.MulScalar p sg))

/-- Verify (pinocchio.go lines 217-268): the type assertion, then the five
pairing checks in order, each failure returning (false, nil); vk.IC
indexing out of range is a Go panic, modelled as none. -/
def Verify {P1 P2 PT : Type} (bn : BnT P1 P2 PT)
    (setup : PinocchioSetup P1 P2) (pr : ProofW P1 P2)
    (publicSignals : List Fr) : Option (Bool × Option ErrT) :=
  match pr with
  | .other => some (false, some ErrT.badProofType)
  | .pinocchio pproof =>
    if bn.Fq12Equal (bn.Pairing pproof.PiA setup.Vk.Vka)
        (bn.Pairing pproof.PiAp bn.G2.G) = false then some (false, none)
    else if bn.Fq12Equal (bn.Pairing setup.Vk.Vkb pproof.PiB)
        (bn.Pairing pproof.PiBp bn.G2.G) = false then some (false, none)
    else if bn.Fq12Equal (bn.Pairing pproof.PiC setup.Vk.Vkc)
        (bn.Pairing pproof.PiCp bn.G2.G) = false then some (false, none)
    else
      match setup.Vk.IC[0]? with
      | none => none
      | some ic0 =>
        match vkxLoop bn setup.Vk.IC 0 publicSignals ic0 with
        | none => none
        | some vkxpia =>
          if bn.Fq12Equal
              (bn.Pairing (bn.G1.Add vkxpia pproof.PiA) pproof.PiB)
              (bn.Fq12Mul (bn.Pairing pproof.PiH setup.Vk.Vkz)
                (bn.Pairing pproof.PiC bn.G2.G)) = false then
            some (false, none)
          else if bn.Fq12Equal
              (bn.Fq12Mul
                (bn.Pairing
                  (bn.G1.Add (bn.G1.Add vkxpia pproof.PiA) pproof.PiC)
                  setup.Vk.G2Kbg)
                (bn.Pairing setup.Vk.G1Kbg pproof.PiB))
              (bn.Pairing pproof.PiKp setup.Vk.G2Kg) = false then
            some (false, none)
          else
            some (true, none)

/-- The rebuilt public linear combination, walking the signals in step
with the tail of vk.IC (spec §4.8 step 1). -/
def vkxSpecAux {P1 P2 PT : Type} (bn : BnT P1 P2 PT) :
    P1 → List Fr → List P1 → P1
  | acc, [], _ => acc
  | acc, _ :: _, [] => acc
  | acc, sg :: sgs, p :: ps =>
    vkxSpecAux bn (bn.G1.Add acc (bn.G1.MulScalar p sg)) sgs ps

/-- Vkx = vk.IC[0] + Σ publicSignals[i]·vk.IC[i+1] (spec §4.8 step 1). -/
def vkxSpec {P1 P2 PT : Type} (bn : BnT P1 P2 PT) (ic : List P1)
    (sigs : List Fr) : P1 :=
  vkxSpecAux bn (ic.headD bn.G1.FZero) sigs (ic.drop 1)

/-- The five pairing equations of the verifier (spec §4.8 step 2), over a
given rebuilt public combination vkx. -/
def fiveChecks {P1 P2 PT : Type} (bn : BnT P1 P2 PT)
    (setup : PinocchioSetup P1 P2) (p : PinocchioProof P1 P2)
    (vkx : P1) : Prop :=
  bn.Fq12Equal (bn.Pairing p.PiA setup.Vk.Vka)
    (bn.Pairing p.PiAp bn.G2.G) = true ∧
  bn.Fq12Equal (bn.Pairing setup.Vk.Vkb p.PiB)
    (bn.Pairing p.PiBp bn.G2.G) = true ∧
  bn.Fq12Equal (bn.Pairing p.PiC setup.Vk.Vkc)
    (bn.Pairing p.PiCp bn.G2.G) = true ∧
  bn.Fq12Equal (bn.Pairing (bn.G1.Add vkx p.PiA) p.PiB)
    (bn.Fq12Mul (bn.Pairing p.PiH setup.Vk.Vkz)
      (bn.Pairing p.PiC bn.G2.G)) = true ∧
  bn.Fq12Equal
    (bn.Fq12Mul
      (bn.Pairing (bn.G1.Add (bn.G1.Add vkx p.PiA) p.PiC) setup.Vk.G2Kbg)
      (bn.Pairing setup.Vk.G1Kbg p.PiB))
    (bn.Pairing p.PiKp setup.Vk.G2Kg) = true

/-- The i-th pk.A entry Init stores: ρA·αᵢ(t)·G1. -/
def aVal {P1 P2 PT : Type} (bn : BnT P1 P2 PT) (toxic : ToxicT)
    (alphas : List Poly) (i : Nat) : P1 :=
  bn.G1.MulScalar bn.G1.G (toxic.RhoA * PF.Eval ((alphas[i]?).getD []) toxic.T)

/-- The i-th G1 beta point: ρB·βᵢ(t)·G1. -/
def bG1Val {P1 P2 PT : Type} (bn : BnT P1 P2 PT) (toxic : ToxicT)
    (betas : List Poly) (i : Nat) : P1 :=
  bn.G1.MulScalar bn.G1.G (toxic.RhoB * PF.Eval ((betas[i]?).getD []) toxic.T)

/-- The i-th pk.B entry Init stores: ρB·βᵢ(t)·G2. -/
def bG2Val {P1 P2 PT : Type} (bn : BnT P1 P2 PT) (toxic : ToxicT)
    (betas : List Poly) (i : Nat) : P2 :=
  bn.G2.MulScalar bn.G2.G (toxic.RhoB * PF.Eval ((betas[i]?).getD []) toxic.T)

/-- The i-th pk.C entry Init stores: ρC·γᵢ(t)·G1. -/
def cVal {P1 P2 PT : Type} (bn : BnT P1 P2 PT) (toxic : ToxicT)
    (gammas : List Poly) (i : Nat) : P1 :=
  bn.G1.MulScalar bn.G1.G (toxic.RhoC * PF.Eval ((gammas[i]?).getD []) toxic.T)

/-- The i-th combined scalar kₜ = ρA·αᵢ(t) + ρB·βᵢ(t) + ρC·γᵢ(t). -/
def ktVal (toxic : ToxicT) (alphas betas gammas : List Poly) (i : Nat) : Fr :=
  toxic.RhoA * PF.Eval ((alphas[i]?).getD []) toxic.T +
  toxic.RhoB * PF.Eval ((betas[i]?).getD []) toxic.T +
  toxic.RhoC * PF.Eval ((gammas[i]?).getD []) toxic.T

/-- The i-th pk.Ap entry: kA·(ρA·αᵢ(t)·G1). -/
def apVal {P1 P2 PT : Type} (bn : BnT P1 P2 PT) (toxic : ToxicT)
    (alphas : List Poly) (i : Nat) : P1 :=
  bn.G1.MulScalar (aVal bn toxic alphas i) toxic.Ka

/-- The i-th pk.Bp entry: kB·(ρB·βᵢ(t)·G1). -/
def bpVal {P1 P2 PT : Type} (bn : BnT P1 P2 PT) (toxic : ToxicT)
    (betas : List Poly) (i : Nat) : P1 :=
  bn.G1.MulScalar (bG1Val bn toxic betas i) toxic.Kb

/-- The i-th pk.Cp entry: kC·(ρC·γᵢ(t)·G1). -/
def cpVal {P1 P2 PT : Type} (bn : BnT P1 P2 PT) (toxic : ToxicT)
    (gammas : List Poly) (i : Nat) : P1 :=
  bn.G1.MulScalar (cVal bn toxic gammas i) toxic.Kc

/-- The i-th pk.Kp entry: kβ·(kₜ·G1). -/
def kpVal {P1 P2 PT : Type} (bn : BnT P1 P2 PT) (toxic : ToxicT)
    (alphas betas gammas : List Poly) (i : Nat) : P1 :=
  bn.G1.MulScalar
    (bn.G1.MulScalar bn.G1.G (ktVal toxic alphas betas gammas i)) toxic.Kbeta

/-- The coefficient list read as a Mathlib polynomial over Fr, index i the
coefficient of X^i. -/
noncomputable def toPoly : Poly → Polynomial Fr
  | [] => 0
  | a :: p => Polynomial.C a + Polynomial.X * toPoly p

/-- Modelled from the spec: the binary expansion of a natural number,
least-significant bit first, computed with a structural fuel. -/
def natBitsAux : Nat → Nat → List Bool
  | 0, _ => []
  | _ + 1, 0 => []
  | fuel + 1, n => (n % 2 = 1) :: natBitsAux fuel (n / 2)

/-- Modelled from the spec: the binary expansion of a scalar (§4.2),
least-significant bit first. -/
def natBits (n : Nat) : List Bool := natBitsAux n n

/-- Modelled from the spec: square-and-multiply exponentiation in Fq on the
binary expansion of the exponent (§4.1). -/
def fqPow (a : Fq) (e : Nat) : Fq :=
  ((natBits e).reverse).foldl
    (fun acc b => let s := acc * acc; if b then s * a else s) 1

/-- Modelled from the spec: the inverse in Fq by Fermat's little theorem,
a^(q−2) (§4.1). -/
def fqInv (a : Fq) : Fq := fqPow a (qBN - 2)

/-- Modelled from the spec: a G1 point in Jacobian projective coordinates
over Fq; the point at infinity is any triple with Z = 0 (§3). -/
structure Jac where
  x : Fq
  y : Fq
  z : Fq
deriving DecidableEq

/-- Modelled from the spec: Jacobian doubling by the dbl-2009-l
formulas (§4.2). -/
def jacDbl (p : Jac) : Jac :=
  let a := p.x * p.x
  let b := p.y * p.y
  let c := b * b
  let d := 2 * ((p.x + b) * (p.x + b) - a - c)
  let e := 3 * a
  let f := e * e
  let x3 := f - 2 * d
  let y3 := e * (d - x3) - 8 * c
  let z3 := 2 * p.y * p.z
  ⟨x3, y3, z3⟩

/-- Modelled from the spec: Jacobian addition by the add-2007-bl formulas,
with the shortcuts that addition with infinity returns the other operand
and addition of a point to itself dispatches to doubling (§4.2). -/
def jacAdd (p q : Jac) : Jac :=
  if p.z = 0 then q
  else if q.z = 0 then p
  else
    let z1z1 := p.z * p.z
    let z2z2 := q.z * q.z
    let u1 := p.x * z2z2
    let u2 := q.x * z1z1
    let s1 := p.y * q.z * z2z2
    let s2 := q.y * p.z * z1z1
    if u1 = u2 then
      if s1 = s2 then jacDbl p else ⟨0, 1, 0⟩
    else
      let h := u2 - u1
      let i := (2 * h) * (2 * h)
      let j := h * i
      let rr := 2 * (s2 - s1)
      let v := u1 * i
      let x3 := rr * rr - j - 2 * v
      let y3 := rr * (v - x3) - 2 * s1 * j
      let z3 := ((p.z + q.z) * (p.z + q.z) - z1z1 - z2z2) * h
      ⟨x3, y3, z3⟩

/-- Modelled from the spec: affine conversion, dividing by Z (§3, §4.2);
infinity is sent to the zero triple. -/
def jacAffine (p : Jac) : Jac :=
  if p.z = 0 then ⟨0, 0, 0⟩
  else
    let zi := fqInv p.z
    let zi2 := zi * zi
    ⟨p.x * zi2, p.y * zi2 * zi, 1⟩

/-- Modelled from the spec: left-to-right double-and-add scalar
multiplication on the binary expansion of the scalar (§4.2). -/
def jacMulNat (p : Jac) (k : Nat) : Jac :=
  ((natBits k).reverse).foldl
    (fun acc b => let d := jacDbl acc; if b then jacAdd d p else d) ⟨0, 1, 0⟩

/-- Modelled from the spec: scalar multiplication by an Fr element, acting
through its representative (§3). -/
def jacMulScalar (p : Jac) (s : Fr) : Jac := jacMulNat p s.val

/-- Modelled from the spec: the concrete G1 operation set over the BN254
curve Y² = X³ + 3 with generator (1, 2) (§4.2, §6). -/
def g1JacOps : G1OpsT Jac where
  G := ⟨1, 2, 1⟩
  FZero := ⟨0, 0, 0⟩
  Add := jacAdd
  MulScalar := jacMulScalar
  Affine := jacAffine

/-- Modelled from the spec: equality of two G1 triples compared
coordinate-wise (§3: equality requires the normalized coordinates). -/
def jacEqb (p q : Jac) : Bool :=
  (p.x == q.x) && (p.y == q.y) && (p.z == q.z)

/-- A bundle instantiating G1 with the concrete Jacobian model; the G2 and
pairing slots are inhabited trivially (they do not affect the G1 points a
theorem over this bundle inspects). -/
def bnJ : BnT Jac Nat Nat where
  G1 := g1JacOps
  G2 := { G := 0, Add := Nat.add, MulScalar := fun p _ => p }
  Fq6Zero := 0
  Fq2Equal := jacEqb
  Fq12Equal := fun a b => a == b
  Fq12Mul := fun a b => a + b
  Pairing := fun _ _ => 0

/-- A small abstract bundle over Nat used to instantiate hypotheses of the
general theorems at concrete inputs. -/
def bnN : BnT Nat Nat Nat where
  G1 := { G := 1, FZero := 0, Add := Nat.add,
          MulScalar := fun p s => p * s.val, Affine := fun p => p }
  G2 := { G := 1, Add := Nat.add, MulScalar := fun p s => p * s.val }
  Fq6Zero := 0
  Fq2Equal := fun a b => a == b
  Fq12Equal := fun a b => a == b
  Fq12Mul := fun a b => a + b
  Pairing := fun a b => a + b

/-- A bundle whose consistency-check comparison always fails, driving
Init into its early return. -/
def bnF : BnT Nat Nat Nat :=
  { bnN with Fq2Equal := fun _ _ => false }

/-- A bundle whose pairing-equality always passes, driving Verify past the
first three checks into the Vkx indexing. -/
def bnV : BnT Nat Nat Nat :=
  { bnN with Fq12Equal := fun _ _ => true }

/-- The all-zero setup state a caller starts from (the Go zero value). -/
def s0N : PinocchioSetup Nat Nat where
  Toxic := ⟨0, 0, 0, 0, 0, 0, 0, 0, 0⟩
  G1T := []
  Pk := { A := [], B := [], C := [], Kp := [], Ap := [], Bp := [],
          Cp := [], Z := [] }
  Vk := { Vka := 0, Vkb := 0, Vkc := 0, IC := [], G1Kbg := 0, G2Kbg := 0,
          G2Kg := 0, Vkz := 0 }

/-- The all-zero setup state over the Jacobian G1 model. -/
def s0J : PinocchioSetup Jac Nat where
  Toxic := ⟨0, 0, 0, 0, 0, 0, 0, 0, 0⟩
  G1T := []
  Pk := { A := [], B := [], C := [], Kp := [], Ap := [], Bp := [],
          Cp := [], Z := [] }
  Vk := { Vka := 0, Vkb := ⟨0, 0, 0⟩, Vkc := 0, IC := [],
          G1Kbg := ⟨0, 0, 0⟩, G2Kbg := 0, G2Kg := 0, Vkz := 0 }

/-- A three-signal circuit with one public output slot. -/
def cirW : Circuit := ⟨[(), (), ()], 1, 3⟩

/-- A zero-signal circuit. -/
def cir0 : Circuit := ⟨[], 0, 0⟩

/-- A one-signal circuit. -/
def cirJ : Circuit := ⟨[()], 0, 1⟩

/-- Concrete sampled toxic scalars for the Nat-bundle instances. -/
def randW : ToxicT := ⟨2, 3, 5, 7, 11, 13, 17, 19, 0⟩

/-- Concrete sampled toxic scalars for the Jacobian instance: RhoA = 2
makes pk.A[0] a genuine Jacobian double with Z ≠ 1. -/
def randJ : ToxicT := ⟨1, 1, 1, 1, 1, 1, 2, 1, 0⟩

/-- Concrete alpha polynomials, one per signal of cirW. -/
def alphasW : List Poly := [[1], [0, 1], [2]]

/-- Concrete beta polynomials, one per signal of cirW. -/
def betasW : List Poly := [[1], [1], [0, 2]]

/-- Concrete gamma polynomials, one per signal of cirW. -/
def gammasW : List Poly := [[2], [3], [1, 1]]

/-- The setup Init produces on the concrete Nat-bundle inputs. -/
def sW : PinocchioSetup Nat Nat :=
  match Init bnN cirW alphasW betasW gammasW randW s0N with
  | some (s, _) => s
  | none => s0N

/-- The partial setup Init's early return leaves on the always-failing
bundle. -/
def c10S2 : PinocchioSetup Nat Nat :=
  match initLoop bnF (mkToxic randW) alphasW betasW gammasW cirW.NPublic
      (List.range cirW.Signals.length) (preLoop bnF randW s0N) with
  | some (s, _) => s
  | none => s0N

/-- A setup whose target polynomial x − 1 does not divide the witness
polynomial 1. -/
def sC2 : PinocchioSetup Nat Nat :=
  { s0N with Pk := { s0N.Pk with Z := [-(1 : Fr), 1] } }

/-- A setup with a single public-combination point, for the Verify
length-mismatch instance. -/
def sV : PinocchioSetup Nat Nat :=
  { s0N with Vk := { s0N.Vk with IC := [0] } }

/-- An all-zero Pinocchio proof over the Nat bundle. -/
def pfW : PinocchioProof Nat Nat :=
  ⟨0, 0, 0, 0, 0, 0, 0, 0⟩

lemma getElem?_zero_eq_headD {α : Type} (l : List α) (d : α)
    (h : 0 < l.length) : l[0]? = some (l.headD d) := by
  cases l with
  | nil => simp at h
  | cons a t => simp

lemma vkxLoop_eq {P1 P2 PT : Type} (bn : BnT P1 P2 PT) (ic : List P1)
    (sigs : List Fr) : ∀ (i : Nat) (acc : P1),
    sigs.length + i < ic.length →
    vkxLoop bn ic i sigs acc = some (vkxSpecAux bn acc sigs (ic.drop (i + 1))) := by
  induction sigs with
  | nil => intro i acc h; rfl
  | cons sg sgs ih =>
    intro i acc h
    have hi : i + 1 < ic.length := by simp at h; omega
    have hic : ic[i + 1]? = some ic[i + 1] := List.getElem?_eq_getElem hi
    have hdrop : ic.drop (i + 1) = ic[i + 1] :: ic.drop (i + 2) :=
      (List.getElem_cons_drop ic (i + 1) hi).symm
    simp only [vkxLoop, hic, Option.bind_eq_bind, Option.some_bind]
    rw [ih (i + 1) _ (by simp at h ⊢; omega), hdrop]
    rfl

lemma verify_pinocchio_err_none {P1 P2 PT : Type} (bn : BnT P1 P2 PT)
    (setup : PinocchioSetup P1 P2) (p : PinocchioProof P1 P2)
    (sigs : List Fr) (r : Bool × Option ErrT)
    (h : Verify bn setup (ProofW.pinocchio p) sigs = some r) : r.2 = none := by
  simp only [Verify] at h
  repeat' split at h
  all_goals (try exact Option.noConfusion h)
  all_goals (injection h with h2; subst h2; rfl)

lemma generate_err_none {P1 P2 PT : Type} (bn : BnT P1 P2 PT)
    (setup : PinocchioSetup P1 P2) (cir : Circuit) (w : List Fr) (px : Poly)
    (r : PinocchioProof P1 P2 × Option ErrT)
    (h : Generate bn setup cir w px = some r) : r.2 = none := by
  simp only [Generate, Option.bind_eq_bind] at h
  obtain ⟨ab, hab, h⟩ := Option.bind_eq_some.mp h
  obtain ⟨m5, hm5, h⟩ := Option.bind_eq_some.mp h
  obtain ⟨piH, hpiH, h⟩ := Option.bind_eq_some.mp h
  injection h with h2
  subst h2
  rfl

lemma loopMain_some_lt {P1 P2 PT : Type} (bn : BnT P1 P2 PT)
    (pkB : List P2) (pkBp pkC pkCp pkKp : List P1) (w : List Fr) :
    ∀ (is : List Nat) (acc acc2 : P2 × P1 × P1 × P1 × P1),
    loopMain bn pkB pkBp pkC pkCp pkKp w is acc = some acc2 →
    ∀ i ∈ is, i < w.length := by
  intro is
  induction is with
  | nil => intro acc acc2 h i hi; simp at hi
  | cons j js ih =>
    intro acc acc2 h i hi
    obtain ⟨pb, pbp, pc, pcp, pkp⟩ := acc
    simp only [loopMain, Option.bind_eq_bind] at h
    obtain ⟨wi, hwj, h⟩ := Option.bind_eq_some.mp h
    obtain ⟨bi, hbj, h⟩ := Option.bind_eq_some.mp h
    obtain ⟨bpi, hbpj, h⟩ := Option.bind_eq_some.mp h
    obtain ⟨ci, hcj, h⟩ := Option.bind_eq_some.mp h
    obtain ⟨cpi, hcpj, h⟩ := Option.bind_eq_some.mp h
    obtain ⟨kpi, hkpj, h⟩ := Option.bind_eq_some.mp h
    rcases List.mem_cons.mp hi with hij | hijs
    · subst hij
      obtain ⟨hlt, _⟩ := List.getElem?_eq_some.mp hwj
      exact hlt
    · exact ih _ _ h i hijs

lemma initLoop_ok {P1 P2 PT : Type} (bn : BnT P1 P2 PT) (toxic : ToxicT)
    (alphas betas gammas : List Poly) (np : Nat) :
    ∀ (is : List Nat) (s s2 : PinocchioSetup P1 P2),
    initLoop bn toxic alphas betas gammas np is s = some (s2, false) →
    s2 = { s with
      Pk := { s.Pk with
        A := s.Pk.A ++ is.map (aVal bn toxic alphas)
        B := s.Pk.B ++ is.map (bG2Val bn toxic betas)
        C := s.Pk.C ++ is.map (cVal bn toxic gammas)
        Ap := s.Pk.Ap ++ is.map (apVal bn toxic alphas)
        Bp := s.Pk.Bp ++ is.map (bpVal bn toxic betas)
        Cp := s.Pk.Cp ++ is.map (cpVal bn toxic gammas)
        Kp := s.Pk.Kp ++ is.map (kpVal bn toxic alphas betas gammas) }
      Vk := { s.Vk with
        IC := s.Vk.IC ++
          ((is.filter fun i => i ≤ np).map (aVal bn toxic alphas)) } } := by
  intro is
  induction is with
  | nil =>
    intro s s2 h
    simp only [initLoop, Option.some.injEq, Prod.mk.injEq] at h
    obtain ⟨h1, -⟩ := h
    subst h1
    simp
  | cons j js ih =>
    intro s s2 h
    simp only [initLoop, Option.bind_eq_bind] at h
    obtain ⟨aj, haj, h⟩ := Option.bind_eq_some.mp h
    obtain ⟨bj, hbj, h⟩ := Option.bind_eq_some.mp h
    obtain ⟨gj, hgj, h⟩ := Option.bind_eq_some.mp h
    have ha2 : aVal bn toxic alphas j =
        bn.G1.MulScalar bn.G1.G (toxic.RhoA * PF.Eval aj toxic.T) := by
      simp [aVal, haj]
    have hb2 : bG2Val bn toxic betas j =
        bn.G2.MulScalar bn.G2.G (toxic.RhoB * PF.Eval bj toxic.T) := by
      simp [bG2Val, hbj]
    have hb3 : bG1Val bn toxic betas j =
        bn.G1.MulScalar bn.G1.G (toxic.RhoB * PF.Eval bj toxic.T) := by
      simp [bG1Val, hbj]
    have hc2 : cVal bn toxic gammas j =
        bn.G1.MulScalar bn.G1.G (toxic.RhoC * PF.Eval gj toxic.T) := by
      simp [cVal, hgj]
    have hkt : ktVal toxic alphas betas gammas j =
        toxic.RhoA * PF.Eval aj toxic.T + toxic.RhoB * PF.Eval bj toxic.T +
          toxic.RhoC * PF.Eval gj toxic.T := by
      simp [ktVal, haj, hbj, hgj]
    split at h
    · injection h with h2
      exact absurd (congrArg Prod.snd h2) (by simp)
    · have h2 := ih _ _ h
      subst h2
      by_cases hj : j ≤ np <;>
        simp [List.filter_cons, hj, ha2, hb2, hc2, apVal, bpVal, cpVal,
          kpVal, hb3, hkt, List.append_assoc]


lemma initLoop_early {P1 P2 PT : Type} (bn : BnT P1 P2 PT) (toxic : ToxicT)
    (alphas betas gammas : List Poly) (np : Nat) :
    ∀ (is : List Nat) (s s2 : PinocchioSetup P1 P2),
    initLoop bn toxic alphas betas gammas np is s = some (s2, true) →
    s2.G1T = s.G1T ∧ s2.Pk.Z = s.Pk.Z ∧ s2.Vk.Vkz = s.Vk.Vkz ∧
    s2.Pk.A.length + s.Pk.Ap.length = s2.Pk.Ap.length + s.Pk.A.length + 1 := by
  intro is
  induction is with
  | nil => intro s s2 h; simp [initLoop] at h
  | cons j js ih =>
    intro s s2 h
    simp only [initLoop, Option.bind_eq_bind] at h
    obtain ⟨aj, haj, h⟩ := Option.bind_eq_some.mp h
    obtain ⟨bj, hbj, h⟩ := Option.bind_eq_some.mp h
    obtain ⟨gj, hgj, h⟩ := Option.bind_eq_some.mp h
    split at h
    · injection h with h2
      have h3 := congrArg Prod.fst h2
      simp only at h3
      subst h3
      refine ⟨rfl, rfl, rfl, ?_⟩
      simp only [List.length_append, List.length_cons, List.length_nil]
      omega
    · obtain ⟨hg1t, hz, hvkz, hlen⟩ := ih _ _ h
      refine ⟨hg1t, hz, hvkz, ?_⟩
      simp only [List.length_append, List.length_cons, List.length_nil] at hlen
      omega

lemma Init_done_eq {P1 P2 PT : Type} (bn : BnT P1 P2 PT) (cir : Circuit)
    (alphas betas gammas : List Poly) (rand : ToxicT)
    (s0 s2 : PinocchioSetup P1 P2)
    (h : initLoop bn (mkToxic rand) alphas betas gammas cir.NPublic
      (List.range cir.Signals.length) (preLoop bn rand s0) = some (s2, false)) :
    Init bn cir alphas betas gammas rand s0 =
      some (postLoop bn (mkToxic rand) alphas s2, none) := by
  simp [Init, h]

lemma filter_le_range (np L : Nat) (h : np < L) :
    (List.range L).filter (fun i => i ≤ np) = List.range (np + 1) := by
  induction L with
  | zero => omega
  | succ L ih =>
    rw [List.range_succ, List.filter_append]
    rcases Nat.lt_or_ge np L with hL | hL
    · have : (List.filter (fun i => i ≤ np) [L]) = [] := by
        simp [List.filter, Nat.not_le.mpr hL]
      rw [ih hL, this, List.append_nil]
    · have hnp : np = L := by omega
      subst hnp
      have h1 : (List.range np).filter (fun i => i ≤ np) = List.range np :=
        List.filter_eq_self.mpr (by
          intro a ha
          have := List.mem_range.mp ha
          simp
          omega)
      have h2 : (List.filter (fun i => i ≤ np) [np]) = [np] := by simp
      rw [h1, h2, ← List.range_succ]

/-- C4: when Init's signal loop completes, pk.A[i] is ρA·αᵢ(t)·G1 for every
signal index, and vk.IC is exactly the prefix pk.A[0..NPublic]: it has
length NPublic + 1 and equals take (NPublic + 1) of pk.A. -/
theorem c4_pkA_and_ic {P1 P2 PT : Type} (bn : BnT P1 P2 PT) (cir : Circuit)
    (alphas betas gammas : List Poly) (rand : ToxicT)
    (s0 : PinocchioSetup P1 P2)
    (hA0 : s0.Pk.A = []) (hIC0 : s0.Vk.IC = [])
    (hsig : cir.Signals.length = cir.NVars)
    (hNP : cir.NPublic < cir.NVars)
    (hdone : InitDone bn cir alphas betas gammas rand s0)
    (s : PinocchioSetup P1 P2) (e : Option ErrT)
    (hinit : Init bn cir alphas betas gammas rand s0 = some (s, e)) :
    s.Pk.A.length = cir.NVars ∧
    (∀ i, i < cir.NVars →
      s.Pk.A[i]? = some (bn.G1.MulScalar bn.G1.G
        (rand.RhoA * PF.Eval ((alphas[i]?).getD []) rand.T))) ∧
    s.Vk.IC.length = cir.NPublic + 1 ∧
    s.Vk.IC = s.Pk.A.take (cir.NPublic + 1) := by
  obtain ⟨s2, h2⟩ := hdone
  rw [Init_done_eq bn cir alphas betas gammas rand s0 s2 h2] at hinit
  injection hinit with h3
  have hs : s = postLoop bn (mkToxic rand) alphas s2 :=
    (congrArg Prod.fst h3).symm
  subst hs
  have h4 := initLoop_ok bn (mkToxic rand) alphas betas gammas cir.NPublic
    (List.range cir.Signals.length) (preLoop bn rand s0) s2 h2
  subst h4
  have hNP2 : cir.NPublic < cir.Signals.length := by omega
  refine ⟨?_, ?_, ?_, ?_⟩
  · simp [postLoop, preLoop, hA0, hsig]
  · intro i hi
    have hi2 : i < cir.Signals.length := by omega
    simp [postLoop, preLoop, hA0, List.getElem?_map,
      List.getElem?_range hi2, aVal, mkToxic]
  · simp [postLoop, preLoop, vkSet, hIC0,
      filter_le_range cir.NPublic cir.Signals.length hNP2]
  · simp [postLoop, preLoop, vkSet, hA0, hIC0,
      filter_le_range cir.NPublic cir.Signals.length hNP2,
      ← List.map_take, List.take_range,
      Nat.min_eq_left (show cir.NPublic + 1 ≤ cir.Signals.length by omega)]

/-- C4 witness: the theorem instantiated at the concrete Nat-bundle
inputs (three signals, NPublic = 1). -/
theorem c4_witness :
    sW.Pk.A.length = cirW.NVars ∧
    (∀ i, i < cirW.NVars →
      sW.Pk.A[i]? = some (bnN.G1.MulScalar bnN.G1.G
        (randW.RhoA * PF.Eval ((alphasW[i]?).getD []) randW.T))) ∧
    sW.Vk.IC.length = cirW.NPublic + 1 ∧
    sW.Vk.IC = sW.Pk.A.take (cirW.NPublic + 1) :=
  c4_pkA_and_ic bnN cirW alphasW betasW gammasW randW s0N rfl rfl rfl
    (by decide) ⟨_, rfl⟩ sW none rfl

/-- C10: if the consistency check of Init's signal loop fails at some
index, Init returns the partially populated setup with a nil error — the
caller gets no indication of the failure: pk.Ap (and the rest) are one
entry shorter than pk.A, and Z, Vkz, G1T are never filled in. -/
theorem c10_check_failure_silent {P1 P2 PT : Type} (bn : BnT P1 P2 PT)
    (cir : Circuit) (alphas betas gammas : List Poly) (rand : ToxicT)
    (s0 s2 : PinocchioSetup P1 P2)
    (hA0 : s0.Pk.A = []) (hAp0 : s0.Pk.Ap = [])
    (hearly : initLoop bn (mkToxic rand) alphas betas gammas cir.NPublic
      (List.range cir.Signals.length) (preLoop bn rand s0) = some (s2, true)) :
    Init bn cir alphas betas gammas rand s0 = some (s2, none) ∧
    s2.Pk.Ap.length + 1 = s2.Pk.A.length ∧
    s2.G1T = s0.G1T ∧ s2.Pk.Z = s0.Pk.Z ∧ s2.Vk.Vkz = s0.Vk.Vkz := by
  obtain ⟨hg1t, hz, hvkz, hlen⟩ := initLoop_early bn (mkToxic rand) alphas
    betas gammas cir.NPublic (List.range cir.Signals.length)
    (preLoop bn rand s0) s2 hearly
  have hpA : (preLoop bn rand s0).Pk.A = [] := hA0
  have hpAp : (preLoop bn rand s0).Pk.Ap = [] := hAp0
  refine ⟨by simp [Init, hearly], ?_, hg1t, hz, hvkz⟩
  rw [hpA, hpAp] at hlen
  simp at hlen
  omega

/-- C10 witness: the theorem instantiated at a bundle whose check
comparison always fails, so the early return fires at index 0. -/
theorem c10_witness :
    Init bnF cirW alphasW betasW gammasW randW s0N = some (c10S2, none) ∧
    c10S2.Pk.Ap.length + 1 = c10S2.Pk.A.length ∧
    c10S2.G1T = s0N.G1T ∧ c10S2.Pk.Z = s0N.Pk.Z ∧
    c10S2.Vk.Vkz = s0N.Vk.Vkz :=
  c10_check_failure_silent bnF cirW alphasW betasW gammasW randW s0N c10S2
    rfl rfl rfl

/-- C1: for a Pinocchio proof and public signals the verifying key can
serve, Verify returns (true, nil) exactly when the five pairing equations
hold over the proof points and the rebuilt combination
Vkx = vk.IC[0] + Σ publicSignals[i]·vk.IC[i+1]; when any equation fails
it returns (false, nil). -/
theorem c1_verify_iff_five_checks {P1 P2 PT : Type} (bn : BnT P1 P2 PT)
    (setup : PinocchioSetup P1 P2) (p : PinocchioProof P1 P2)
    (sigs : List Fr) (hlen : sigs.length < setup.Vk.IC.length) :
    (Verify bn setup (ProofW.pinocchio p) sigs = some (true, none) ↔
      fiveChecks bn setup p (vkxSpec bn setup.Vk.IC sigs)) ∧
    (¬ fiveChecks bn setup p (vkxSpec bn setup.Vk.IC sigs) →
      Verify bn setup (ProofW.pinocchio p) sigs = some (false, none)) := by
  have h0 : 0 < setup.Vk.IC.length := lt_of_le_of_lt (Nat.zero_le _) hlen
  have hic0 : setup.Vk.IC[0]? = some (setup.Vk.IC.headD bn.G1.FZero) :=
    getElem?_zero_eq_headD _ _ h0
  have hvkx : vkxLoop bn setup.Vk.IC 0 sigs (setup.Vk.IC.headD bn.G1.FZero) =
      some (vkxSpec bn setup.Vk.IC sigs) := by
    have h2 := vkxLoop_eq bn setup.Vk.IC sigs 0
      (setup.Vk.IC.headD bn.G1.FZero) (by omega)
    simpa [vkxSpec] using h2
  simp only [Verify, hic0, hvkx]
  cases h1 : bn.Fq12Equal (bn.Pairing p.PiA setup.Vk.Vka)
      (bn.Pairing p.PiAp bn.G2.G) <;>
    cases h2 : bn.Fq12Equal (bn.Pairing setup.Vk.Vkb p.PiB)
        (bn.Pairing p.PiBp bn.G2.G) <;>
      cases h3 : bn.Fq12Equal (bn.Pairing p.PiC setup.Vk.Vkc)
          (bn.Pairing p.PiCp bn.G2.G) <;>
        cases h4 : bn.Fq12Equal
            (bn.Pairing (bn.G1.Add (vkxSpec bn setup.Vk.IC sigs) p.PiA) p.PiB)
            (bn.Fq12Mul (bn.Pairing p.PiH setup.Vk.Vkz)
              (bn.Pairing p.PiC bn.G2.G)) <;>
          cases h5 : bn.Fq12Equal
              (bn.Fq12Mul
                (bn.Pairing
                  (bn.G1.Add
                    (bn.G1.Add (vkxSpec bn setup.Vk.IC sigs) p.PiA) p.PiC)
                  setup.Vk.G2Kbg)
                (bn.Pairing setup.Vk.G1Kbg p.PiB))
              (bn.Pairing p.PiKp setup.Vk.G2Kg) <;>
            simp_all [fiveChecks]

/-- C1 witness: the theorem instantiated at the concrete Nat-bundle setup
with one public signal. -/
theorem c1_witness :
    (([0] : List Fr).length < sW.Vk.IC.length) ∧
    ((Verify bnN sW (ProofW.pinocchio pfW) [0] = some (true, none) ↔
      fiveChecks bnN sW pfW (vkxSpec bnN sW.Vk.IC [0])) ∧
    (¬ fiveChecks bnN sW pfW (vkxSpec bnN sW.Vk.IC [0]) →
      Verify bnN sW (ProofW.pinocchio pfW) [0] = some (false, none))) :=
  ⟨by decide, c1_verify_iff_five_checks bnN sW pfW [0] (by decide)⟩

lemma getElem?_eq_some_getD {α : Type} (l : List α) (d : α) (i : Nat)
    (h : i < l.length) : l[i]? = some (l.getD i d) := by
  rw [List.getD_eq_getElem?_getD, List.getElem?_eq_getElem h]
  rfl

lemma loopAB_ok {P1 P2 PT : Type} (bn : BnT P1 P2 PT) (pkA pkAp : List P1)
    (w : List Fr) :
    ∀ (is : List Nat) (pa pap : P1),
    (∀ i ∈ is, i < w.length ∧ i < pkA.length ∧ i < pkAp.length) →
    loopAB bn pkA pkAp w is (pa, pap) =
      some ((is.map fun i =>
          bn.G1.MulScalar (pkA.getD i bn.G1.FZero) (w.getD i 0)).foldl
            bn.G1.Add pa,
        (is.map fun i =>
          bn.G1.MulScalar (pkAp.getD i bn.G1.FZero) (w.getD i 0)).foldl
            bn.G1.Add pap) := by
  intro is
  induction is with
  | nil => intro pa pap hv; rfl
  | cons j js ih =>
    intro pa pap hv
    obtain ⟨hjw, hjA, hjAp⟩ := hv j (List.mem_cons_self j js)
    have hw := getElem?_eq_some_getD w 0 j hjw
    have hA := getElem?_eq_some_getD pkA bn.G1.FZero j hjA
    have hAp := getElem?_eq_some_getD pkAp bn.G1.FZero j hjAp
    simp only [loopAB, hw, hA, hAp, Option.bind_eq_bind, Option.some_bind]
    rw [ih _ _ (fun i hi => hv i (List.mem_cons_of_mem j hi))]
    simp

lemma loopMain_ok {P1 P2 PT : Type} (bn : BnT P1 P2 PT) (pkB : List P2)
    (pkBp pkC pkCp pkKp : List P1) (w : List Fr) :
    ∀ (is : List Nat) (pb : P2) (pbp pc pcp pkp : P1),
    (∀ i ∈ is, i < w.length ∧ i < pkB.length ∧ i < pkBp.length ∧
      i < pkC.length ∧ i < pkCp.length ∧ i < pkKp.length) →
    loopMain bn pkB pkBp pkC pkCp pkKp w is (pb, pbp, pc, pcp, pkp) =
      some ((is.map fun i =>
          bn.G2.MulScalar (pkB.getD i bn.Fq6Zero) (w.getD i 0)).foldl
            bn.G2.Add pb,
        (is.map fun i =>
          bn.G1.MulScalar (pkBp.getD i bn.G1.FZero) (w.getD i 0)).foldl
            bn.G1.Add pbp,
        (is.map fun i =>
          bn.G1.MulScalar (pkC.getD i bn.G1.FZero) (w.getD i 0)).foldl
            bn.G1.Add pc,
        (is.map fun i =>
          bn.G1.MulScalar (pkCp.getD i bn.G1.FZero) (w.getD i 0)).foldl
            bn.G1.Add pcp,
        (is.map fun i =>
          bn.G1.MulScalar (pkKp.getD i bn.G1.FZero) (w.getD i 0)).foldl
            bn.G1.Add pkp) := by
  intro is
  induction is with
  | nil => intro pb pbp pc pcp pkp hv; rfl
  | cons j js ih =>
    intro pb pbp pc pcp pkp hv
    obtain ⟨hjw, hjB, hjBp, hjC, hjCp, hjKp⟩ := hv j (List.mem_cons_self j js)
    have hw := getElem?_eq_some_getD w 0 j hjw
    have hB := getElem?_eq_some_getD pkB bn.Fq6Zero j hjB
    have hBp := getElem?_eq_some_getD pkBp bn.G1.FZero j hjBp
    have hC := getElem?_eq_some_getD pkC bn.G1.FZero j hjC
    have hCp := getElem?_eq_some_getD pkCp bn.G1.FZero j hjCp
    have hKp := getElem?_eq_some_getD pkKp bn.G1.FZero j hjKp
    simp only [loopMain, hw, hB, hBp, hC, hCp, hKp, Option.bind_eq_bind,
      Option.some_bind]
    rw [ih _ _ _ _ _ (fun i hi => hv i (List.mem_cons_of_mem j hi))]
    simp

lemma loopH_ok {P1 P2 PT : Type} (bn : BnT P1 P2 PT) (g1t : List P1)
    (hx : Poly) :
    ∀ (is : List Nat) (acc : P1),
    (∀ i ∈ is, i < hx.length ∧ i < g1t.length) →
    loopH bn g1t hx is acc =
      some ((is.map fun i =>
        bn.G1.MulScalar (g1t.getD i bn.G1.FZero) (hx.getD i 0)).foldl
          bn.G1.Add acc) := by
  intro is
  induction is with
  | nil => intro acc hv; rfl
  | cons j js ih =>
    intro acc hv
    obtain ⟨hjh, hjg⟩ := hv j (List.mem_cons_self j js)
    have hh := getElem?_eq_some_getD hx 0 j hjh
    have hg := getElem?_eq_some_getD g1t bn.G1.FZero j hjg
    simp only [loopH, hh, hg, Option.bind_eq_bind, Option.some_bind]
    rw [ih _ (fun i hi => hv i (List.mem_cons_of_mem j hi))]
    simp

/-- C3: with a full-length witness and a fully populated proving key,
Generate returns a nil error and the proof whose points are exactly the
accumulated sums: PiA and PiAp over the private indices
NPublic < i < NVars only, PiB, PiBp, PiC, PiCp and PiKp over every index
in [0, NVars), and PiH over the coefficients of h; every accumulator
starts from the zero triple FZero (the (0,0,0) Jacobian representation of
the point at infinity: in the concrete G1 model its Z-coordinate is 0). -/
theorem c3_generate_accumulation {P1 P2 PT : Type} (bn : BnT P1 P2 PT)
    (setup : PinocchioSetup P1 P2) (cir : Circuit) (w : List Fr) (px : Poly)
    (hw : cir.NVars ≤ w.length)
    (hA : cir.NVars ≤ setup.Pk.A.length)
    (hAp : cir.NVars ≤ setup.Pk.Ap.length)
    (hB : cir.NVars ≤ setup.Pk.B.length)
    (hBp : cir.NVars ≤ setup.Pk.Bp.length)
    (hC : cir.NVars ≤ setup.Pk.C.length)
    (hCp : cir.NVars ≤ setup.Pk.Cp.length)
    (hKp : cir.NVars ≤ setup.Pk.Kp.length)
    (hH : (PF.DivisorPolynomial px setup.Pk.Z).length ≤ setup.G1T.length) :
    Generate bn setup cir w px = some (
      { PiA := ((List.range' (cir.NPublic + 1)
            (cir.NVars - (cir.NPublic + 1))).map fun i =>
            bn.G1.MulScalar (setup.Pk.A.getD i bn.G1.FZero) (w.getD i 0)).foldl
              bn.G1.Add bn.G1.FZero
        PiAp := ((List.range' (cir.NPublic + 1)
            (cir.NVars - (cir.NPublic + 1))).map fun i =>
            bn.G1.MulScalar (setup.Pk.Ap.getD i bn.G1.FZero) (w.getD i 0)).foldl
              bn.G1.Add bn.G1.FZero
        PiB := ((List.range cir.NVars).map fun i =>
            bn.G2.MulScalar (setup.Pk.B.getD i bn.Fq6Zero) (w.getD i 0)).foldl
              bn.G2.Add bn.Fq6Zero
        PiBp := ((List.range cir.NVars).map fun i =>
            bn.G1.MulScalar (setup.Pk.Bp.getD i bn.G1.FZero) (w.getD i 0)).foldl
              bn.G1.Add bn.G1.FZero
        PiC := ((List.range cir.NVars).map fun i =>
            bn.G1.MulScalar (setup.Pk.C.getD i bn.G1.FZero) (w.getD i 0)).foldl
              bn.G1.Add bn.G1.FZero
        PiCp := ((List.range cir.NVars).map fun i =>
            bn.G1.MulScalar (setup.Pk.Cp.getD i bn.G1.FZero) (w.getD i 0)).foldl
              bn.G1.Add bn.G1.FZero
        PiH := ((List.range (PF.DivisorPolynomial px setup.Pk.Z).length).map
            fun i => bn.G1.MulScalar (setup.G1T.getD i bn.G1.FZero)
              ((PF.DivisorPolynomial px setup.Pk.Z).getD i 0)).foldl
              bn.G1.Add bn.G1.FZero
        PiKp := ((List.range cir.NVars).map fun i =>
            bn.G1.MulScalar (setup.Pk.Kp.getD i bn.G1.FZero) (w.getD i 0)).foldl
              bn.G1.Add bn.G1.FZero }, none) ∧
    g1JacOps.FZero.z = 0 := by
  have h1 := loopAB_ok bn setup.Pk.A setup.Pk.Ap w
    (List.range' (cir.NPublic + 1) (cir.NVars - (cir.NPublic + 1)))
    bn.G1.FZero bn.G1.FZero (by
      intro i hi
      have h2 := List.mem_range'_1.mp hi
      omega)
  have h2 := loopMain_ok bn setup.Pk.B setup.Pk.Bp setup.Pk.C setup.Pk.Cp
    setup.Pk.Kp w (List.range cir.NVars) bn.Fq6Zero bn.G1.FZero bn.G1.FZero
    bn.G1.FZero bn.G1.FZero (by
      intro i hi
      have h3 := List.mem_range.mp hi
      omega)
  have h3 := loopH_ok bn setup.G1T (PF.DivisorPolynomial px setup.Pk.Z)
    (List.range (PF.DivisorPolynomial px setup.Pk.Z).length) bn.G1.FZero (by
      intro i hi
      have h4 := List.mem_range.mp hi
      omega)
  refine ⟨?_, rfl⟩
  simp [Generate, h1, h2, h3]

/-- C3 witness: the theorem instantiated at the concrete Nat-bundle setup
with the full-length witness [1, 2, 3]. -/
theorem c3_witness :
    Generate bnN sW cirW [1, 2, 3] [] = some (
      { PiA := ((List.range' (cirW.NPublic + 1)
            (cirW.NVars - (cirW.NPublic + 1))).map fun i =>
            bnN.G1.MulScalar (sW.Pk.A.getD i bnN.G1.FZero)
              (([1, 2, 3] : List Fr).getD i 0)).foldl bnN.G1.Add bnN.G1.FZero
        PiAp := ((List.range' (cirW.NPublic + 1)
            (cirW.NVars - (cirW.NPublic + 1))).map fun i =>
            bnN.G1.MulScalar (sW.Pk.Ap.getD i bnN.G1.FZero)
              (([1, 2, 3] : List Fr).getD i 0)).foldl bnN.G1.Add bnN.G1.FZero
        PiB := ((List.range cirW.NVars).map fun i =>
            bnN.G2.MulScalar (sW.Pk.B.getD i bnN.Fq6Zero)
              (([1, 2, 3] : List Fr).getD i 0)).foldl bnN.G2.Add bnN.Fq6Zero
        PiBp := ((List.range cirW.NVars).map fun i =>
            bnN.G1.MulScalar (sW.Pk.Bp.getD i bnN.G1.FZero)
              (([1, 2, 3] : List Fr).getD i 0)).foldl bnN.G1.Add bnN.G1.FZero
        PiC := ((List.range cirW.NVars).map fun i =>
            bnN.G1.MulScalar (sW.Pk.C.getD i bnN.G1.FZero)
              (([1, 2, 3] : List Fr).getD i 0)).foldl bnN.G1.Add bnN.G1.FZero
        PiCp := ((List.range cirW.NVars).map fun i =>
            bnN.G1.MulScalar (sW.Pk.Cp.getD i bnN.G1.FZero)
              (([1, 2, 3] : List Fr).getD i 0)).foldl bnN.G1.Add bnN.G1.FZero
        PiH := ((List.range (PF.DivisorPolynomial [] sW.Pk.Z).length).map
            fun i => bnN.G1.MulScalar (sW.G1T.getD i bnN.G1.FZero)
              ((PF.DivisorPolynomial [] sW.Pk.Z).getD i 0)).foldl
              bnN.G1.Add bnN.G1.FZero
        PiKp := ((List.range cirW.NVars).map fun i =>
            bnN.G1.MulScalar (sW.Pk.Kp.getD i bnN.G1.FZero)
              (([1, 2, 3] : List Fr).getD i 0)).foldl bnN.G1.Add bnN.G1.FZero },
      none) ∧
    g1JacOps.FZero.z = 0 :=
  c3_generate_accumulation bnN sW cirW [1, 2, 3] [] (by decide) (by decide)
    (by decide) (by decide) (by decide) (by decide) (by decide) (by decide)
    (by decide)

/-- C7: Verify returns a non-nil error exactly for a proof value that is
not a Pinocchio proof (the failed type assertion); a well-formed
Pinocchio proof never yields an error, only (false, nil) or (true, nil). -/
theorem c7_error_only_for_malformed {P1 P2 PT : Type} (bn : BnT P1 P2 PT)
    (setup : PinocchioSetup P1 P2) (sigs : List Fr) :
    Verify bn setup ProofW.other sigs = some (false, some ErrT.badProofType) ∧
    (∀ (p : PinocchioProof P1 P2) (r : Bool × Option ErrT),
      Verify bn setup (ProofW.pinocchio p) sigs = some r → r.2 = none) := by
  refine ⟨rfl, ?_⟩
  intro p r h
  exact verify_pinocchio_err_none bn setup p sigs r h

set_option maxRecDepth 1000000 in
/-- C8 counterexample: over the concrete Jacobian G1 model, the setup
Init hands out contains a pk.A entry whose Z-coordinate is not 1 (with
RhoA = 2 the entry is a raw Jacobian double, Z = 4), so the outputs are
not canonicalized to affine coordinates. -/
theorem c8_counterexample :
    (Init bnJ cirJ [[1]] [[1]] [[1]] randJ s0J).map
      (fun se => se.1.Pk.A.all fun p => p.z == 1) = some false := by
  decide

/-- C8 (amended): Init stores its outputs exactly as scalar multiplication
produces them, in Jacobian form with no affine canonicalization — the
verifying-key points and the powers-of-t base are the raw MulScalar
images; affine conversion appears only inside the internal consistency
check. -/
theorem c8_outputs_raw_jacobian {P1 P2 PT : Type} (bn : BnT P1 P2 PT)
    (cir : Circuit) (alphas betas gammas : List Poly) (rand : ToxicT)
    (s0 : PinocchioSetup P1 P2)
    (hdone : InitDone bn cir alphas betas gammas rand s0)
    (s : PinocchioSetup P1 P2) (e : Option ErrT)
    (hinit : Init bn cir alphas betas gammas rand s0 = some (s, e)) :
    s.Vk.Vka = bn.G2.MulScalar bn.G2.G rand.Ka ∧
    s.Vk.Vkb = bn.G1.MulScalar bn.G1.G rand.Kb ∧
    s.Vk.Vkc = bn.G2.MulScalar bn.G2.G rand.Kc ∧
    s.Vk.G1Kbg = bn.G1.MulScalar bn.G1.G (rand.Kbeta * rand.Kgamma) ∧
    s.Vk.G2Kbg = bn.G2.MulScalar bn.G2.G (rand.Kbeta * rand.Kgamma) ∧
    s.Vk.G2Kg = bn.G2.MulScalar bn.G2.G rand.Kgamma ∧
    s.Vk.Vkz = bn.G2.MulScalar bn.G2.G
      ((rand.RhoA * rand.RhoB) * PF.Eval (zpolGo alphas.length) rand.T) ∧
    s.G1T = g1tGo bn.G1 rand.T (zpolGo alphas.length).length := by
  obtain ⟨s2, h2⟩ := hdone
  rw [Init_done_eq bn cir alphas betas gammas rand s0 s2 h2] at hinit
  injection hinit with h3
  have hs : s = postLoop bn (mkToxic rand) alphas s2 :=
    (congrArg Prod.fst h3).symm
  subst hs
  have h4 := initLoop_ok bn (mkToxic rand) alphas betas gammas cir.NPublic
    (List.range cir.Signals.length) (preLoop bn rand s0) s2 h2
  subst h4
  refine ⟨?_, ?_, ?_, ?_, ?_, ?_, ?_, ?_⟩ <;>
    simp [postLoop, preLoop, vkSet, mkToxic]

/-- C8 witness: the amended theorem instantiated at the concrete
Nat-bundle inputs. -/
theorem c8_witness :
    sW.Vk.Vka = bnN.G2.MulScalar bnN.G2.G randW.Ka ∧
    sW.Vk.Vkb = bnN.G1.MulScalar bnN.G1.G randW.Kb ∧
    sW.Vk.Vkc = bnN.G2.MulScalar bnN.G2.G randW.Kc ∧
    sW.Vk.G1Kbg = bnN.G1.MulScalar bnN.G1.G (randW.Kbeta * randW.Kgamma) ∧
    sW.Vk.G2Kbg = bnN.G2.MulScalar bnN.G2.G (randW.Kbeta * randW.Kgamma) ∧
    sW.Vk.G2Kg = bnN.G2.MulScalar bnN.G2.G randW.Kgamma ∧
    sW.Vk.Vkz = bnN.G2.MulScalar bnN.G2.G
      ((randW.RhoA * randW.RhoB) * PF.Eval (zpolGo alphasW.length) randW.T) ∧
    sW.G1T = g1tGo bnN.G1 randW.T (zpolGo alphasW.length).length :=
  c8_outputs_raw_jacobian bnN cirW alphasW betasW gammasW randW s0N
    ⟨_, rfl⟩ sW none rfl

lemma toPoly_addPoly (p : Poly) : ∀ q : Poly,
    toPoly (PF.addPoly p q) = toPoly p + toPoly q := by
  induction p with
  | nil => intro q; simp [PF.addPoly, toPoly]
  | cons a p ih =>
    intro q
    cases q with
    | nil => simp [PF.addPoly, toPoly]
    | cons b q =>
      simp only [PF.addPoly, toPoly, ih, Polynomial.C_add]
      ring

lemma toPoly_map_mulLeft (a : Fr) (q : Poly) :
    toPoly (q.map fun b => a * b) = Polynomial.C a * toPoly q := by
  induction q with
  | nil => simp [toPoly]
  | cons b q ih =>
    simp only [List.map_cons, toPoly, ih, Polynomial.C_mul]
    ring

lemma toPoly_mulL (p : Poly) : ∀ q : Poly,
    toPoly (PF.mulL p q) = toPoly p * toPoly q := by
  induction p with
  | nil => intro q; simp [PF.mulL, toPoly]
  | cons a p ih =>
    intro q
    simp only [PF.mulL, toPoly_addPoly, toPoly_map_mulLeft, toPoly, ih,
      Polynomial.C_0]
    ring

lemma toPoly_normPoly (p : Poly) : toPoly (PF.normPoly p) = toPoly p := by
  induction p with
  | nil => rfl
  | cons a p ih =>
    rcases h : PF.normPoly p with _ | ⟨b, t⟩
    · rw [h] at ih
      by_cases ha : a = 0 <;>
        simp [PF.normPoly, h, ha, toPoly, ← ih]
    · rw [h] at ih
      simp [PF.normPoly, h, toPoly, ← ih]

lemma toPoly_Mul (p q : Poly) :
    toPoly (PF.Mul p q) = toPoly p * toPoly q := by
  rw [PF.Mul, toPoly_normPoly, toPoly_mulL]

lemma toPoly_linear (c : Fr) :
    toPoly [c, 1] = Polynomial.X + Polynomial.C c := by
  simp only [toPoly, Polynomial.C_1, mul_zero, add_zero, mul_one]
  ring

lemma toPoly_zfold : ∀ (l : List Nat) (z : Poly),
    toPoly (l.foldl (fun (z : Poly) (i : Nat) => PF.Mul z [-(i : Fr), 1]) z) =
      toPoly z *
        (l.map fun (i : Nat) =>
          Polynomial.X - Polynomial.C (i : Fr)).prod := by
  intro l
  induction l with
  | nil => intro z; simp
  | cons j l ih =>
    intro z
    simp only [List.foldl_cons, ih, toPoly_Mul, toPoly_linear,
      List.map_cons, List.prod_cons, Polynomial.C_neg]
    ring

lemma range'_map_prod (f : Nat → Polynomial Fr) : ∀ k : Nat,
    ((List.range' 1 k).map f).prod = ∏ i in Finset.Icc 1 k, f i := by
  intro k
  induction k with
  | zero => simp
  | succ k ih =>
    rw [List.range'_concat, Finset.prod_Icc_succ_top (by omega)]
    simp only [List.map_append, List.prod_append, List.map_cons,
      List.map_nil, List.prod_cons, List.prod_nil, ih]
    simp [Nat.add_comm 1 k]

lemma zpolGo_toPoly (n : Nat) :
    toPoly (zpolGo n) =
      ∏ i in Finset.Icc 1 (n - 2),
        (Polynomial.X - Polynomial.C (i : Fr)) := by
  rw [zpolGo, toPoly_zfold, range'_map_prod]
  simp [toPoly]

lemma zpolGo_monic (n : Nat) : (toPoly (zpolGo n)).Monic := by
  rw [zpolGo_toPoly]
  exact Polynomial.monic_prod_of_monic _ _
    (fun i _ => Polynomial.monic_X_sub_C (i : Fr))

lemma zpolGo_natDegree (n : Nat) :
    (toPoly (zpolGo n)).natDegree = n - 2 := by
  rw [zpolGo_toPoly]
  have h := Polynomial.natDegree_prod_of_monic (Finset.Icc 1 (n - 2))
    (fun (i : Nat) => Polynomial.X - Polynomial.C (i : Fr))
    (fun i _ => Polynomial.monic_X_sub_C ((i : Fr)))
  rw [h]
  have h2 : ∀ x ∈ Finset.Icc 1 (n - 2),
      (Polynomial.X - Polynomial.C ((x : Nat) : Fr)).natDegree = 1 :=
    fun x _ => Polynomial.natDegree_X_sub_C _
  rw [Finset.sum_congr rfl h2]
  simp [Nat.card_Icc]

lemma addPoly_length (p : Poly) : ∀ q : Poly,
    (PF.addPoly p q).length = max p.length q.length := by
  induction p with
  | nil => intro q; simp [PF.addPoly]
  | cons a p ih =>
    intro q
    cases q with
    | nil => simp [PF.addPoly]
    | cons b q => simp [PF.addPoly, ih, Nat.succ_max_succ]

lemma addPoly_comm (p : Poly) : ∀ q : Poly,
    PF.addPoly p q = PF.addPoly q p := by
  induction p with
  | nil => intro q; cases q <;> rfl
  | cons a p ih =>
    intro q
    cases q with
    | nil => rfl
    | cons b q => simp [PF.addPoly, ih, add_comm]

lemma addPoly_assoc (p : Poly) : ∀ (q r : Poly),
    PF.addPoly (PF.addPoly p q) r = PF.addPoly p (PF.addPoly q r) := by
  induction p with
  | nil => intro q r; simp [PF.addPoly]
  | cons a p ih =>
    intro q r
    cases q with
    | nil => simp [PF.addPoly]
    | cons b q =>
      cases r with
      | nil => simp [PF.addPoly]
      | cons c r => simp [PF.addPoly, ih, add_assoc]

lemma getLast?_cons_of_ne {α : Type} (x : α) (l : List α) (h : l ≠ []) :
    (x :: l).getLast? = l.getLast? := by
  cases l with
  | nil => exact absurd rfl h
  | cons y t => exact List.getLast?_cons_cons

lemma getLast?_addPoly_right (p : Poly) : ∀ q : Poly, p.length < q.length →
    (PF.addPoly p q).getLast? = q.getLast? := by
  induction p with
  | nil => intro q h; cases q <;> simp [PF.addPoly]
  | cons a p ih =>
    intro q h
    cases q with
    | nil => simp at h
    | cons b q =>
      simp only [List.length_cons, Nat.add_lt_add_iff_right] at h
      have hq : q ≠ [] := by
        intro he
        subst he
        simp at h
      have hpq : PF.addPoly p q ≠ [] := by
        have hlen := addPoly_length p q
        intro he
        rw [he] at hlen
        simp only [List.length_nil] at hlen
        have h3 : q.length = 0 := by omega
        omega
      rw [PF.addPoly, getLast?_cons_of_ne _ _ hpq, getLast?_cons_of_ne _ _ hq]
      exact ih q h

lemma normPoly_eq_self (p : Poly) : ∀ a : Fr, p.getLast? = some a → a ≠ 0 →
    PF.normPoly p = p := by
  induction p with
  | nil => intro a ha; simp at ha
  | cons x t ih =>
    intro a ha h0
    cases t with
    | nil =>
      simp at ha
      subst ha
      simp [PF.normPoly, h0]
    | cons y t2 =>
      rw [List.getLast?_cons_cons] at ha
      have h2 := ih a ha h0
      rw [PF.normPoly, h2]

lemma mulL_linear (z : Poly) (c : Fr) : z ≠ [] →
    PF.mulL z [c, 1] = PF.addPoly (z.map fun a => a * c) (0 :: z) := by
  induction z with
  | nil => intro h; exact absurd rfl h
  | cons a z ih =>
    intro _
    cases z with
    | nil => simp [PF.mulL, PF.addPoly, mul_one]
    | cons b z2 =>
      have h2 := ih (by simp)
      simp only [PF.mulL] at h2 ⊢
      rw [h2]
      have hstep : PF.addPoly [a * 1]
          (PF.addPoly ((b :: z2).map fun x => x * c) (0 :: b :: z2)) =
          PF.addPoly ((b :: z2).map fun x => x * c)
            (PF.addPoly [a * 1] (0 :: b :: z2)) := by
        rw [← addPoly_assoc, addPoly_comm [a * 1], addPoly_assoc]
      simp only [List.map_cons, PF.addPoly, hstep, mul_one, add_zero]
      simp [PF.addPoly, add_comm]

lemma Mul_linear_shape (z : Poly) (c : Fr) (hz : z ≠ [])
    (hlast : z.getLast? = some 1) :
    (PF.Mul z [c, 1]).length = z.length + 1 ∧
    (PF.Mul z [c, 1]).getLast? = some 1 := by
  have hlen : (PF.addPoly (z.map fun a => a * c) (0 :: z)).length =
      z.length + 1 := by
    rw [addPoly_length]
    simp
  have hlast2 : (PF.addPoly (z.map fun a => a * c) (0 :: z)).getLast? =
      some 1 := by
    rw [getLast?_addPoly_right _ _ (by simp), getLast?_cons_of_ne _ _ hz]
    exact hlast
  have hnorm : PF.normPoly (PF.addPoly (z.map fun a => a * c) (0 :: z)) =
      PF.addPoly (z.map fun a => a * c) (0 :: z) :=
    normPoly_eq_self _ 1 hlast2 (by decide)
  rw [PF.Mul, mulL_linear z c hz, hnorm]
  exact ⟨hlen, hlast2⟩

lemma zfold_shape : ∀ (l : List Nat) (z : Poly), z ≠ [] →
    z.getLast? = some 1 →
    (l.foldl (fun (z : Poly) (i : Nat) =>
      PF.Mul z [-(i : Fr), 1]) z).length = z.length + l.length ∧
    (l.foldl (fun (z : Poly) (i : Nat) =>
      PF.Mul z [-(i : Fr), 1]) z).getLast? = some 1 := by
  intro l
  induction l with
  | nil => intro z hz hlast; exact ⟨by simp, hlast⟩
  | cons j l ih =>
    intro z hz hlast
    obtain ⟨hlen1, hlast1⟩ := Mul_linear_shape z (-(j : Fr)) hz hlast
    have hne : PF.Mul z [-(j : Fr), 1] ≠ [] := by
      intro he
      have h2 := congrArg List.length he
      rw [hlen1] at h2
      simp at h2
    obtain ⟨hlen2, hlast2⟩ := ih (PF.Mul z [-(j : Fr), 1]) hne hlast1
    rw [List.foldl_cons]
    constructor
    · rw [hlen2, hlen1]
      simp
      omega
    · exact hlast2

lemma zpolGo_length (n : Nat) : (zpolGo n).length = (n - 2) + 1 := by
  have h := zfold_shape (List.range' 1 (n - 2)) [1] (by simp) (by simp)
  rw [zpolGo, h.1]
  simp [Nat.add_comm]

lemma g1tLoop_spec {P1 : Type} (g1 : G1OpsT P1) (t : Fr) :
    ∀ (k j : Nat) (tE : Fr), tE = t ^ (j + 1) →
    g1tLoop g1 t k tE =
      (List.range' (j + 1) k).map fun m => g1.MulScalar g1.G (t ^ m) := by
  intro k
  induction k with
  | zero => intro j tE htE; rfl
  | succ k ih =>
    intro j tE htE
    rw [g1tLoop, List.range'_succ]
    simp only [List.map_cons]
    rw [htE, ih (j + 1) (t ^ (j + 1) * t) (by rw [← pow_succ])]

lemma g1tGo_spec {P1 : Type} (g1 : G1OpsT P1) (t : Fr) (L : Nat)
    (hone : g1.MulScalar g1.G 1 = g1.G) (hL : 1 ≤ L) :
    g1tGo g1 t L = (List.range L).map fun k => g1.MulScalar g1.G (t ^ k) := by
  obtain ⟨l, rfl⟩ : ∃ l, L = l + 1 := ⟨L - 1, by omega⟩
  rw [g1tGo, List.range_eq_range', List.range'_succ]
  simp only [List.map_cons, Nat.add_sub_cancel, pow_zero, hone]
  rw [g1tLoop_spec g1 t l 0 t (by simp)]

/-- C5: when Init's loop completes, with m − 1 the count of linear factors
Init multiplies (the loop runs i = 1 while i < len(alphas) − 1, so
m = len(alphas) − 1), the stored target polynomial pk.Z is exactly the
monic polynomial ∏ (x − i) for i = 1..m−1, of degree m − 1. -/
theorem c5_target_polynomial {P1 P2 PT : Type} (bn : BnT P1 P2 PT)
    (cir : Circuit) (alphas betas gammas : List Poly) (rand : ToxicT)
    (s0 : PinocchioSetup P1 P2) (m : Nat)
    (hm : m = alphas.length - 1)
    (hdone : InitDone bn cir alphas betas gammas rand s0)
    (s : PinocchioSetup P1 P2) (e : Option ErrT)
    (hinit : Init bn cir alphas betas gammas rand s0 = some (s, e)) :
    toPoly s.Pk.Z =
      ∏ i in Finset.Icc 1 (m - 1),
        (Polynomial.X - Polynomial.C (i : Fr)) ∧
    (toPoly s.Pk.Z).Monic ∧
    (toPoly s.Pk.Z).natDegree = m - 1 := by
  obtain ⟨s2, h2⟩ := hdone
  rw [Init_done_eq bn cir alphas betas gammas rand s0 s2 h2] at hinit
  injection hinit with h3
  have hs : s = postLoop bn (mkToxic rand) alphas s2 :=
    (congrArg Prod.fst h3).symm
  subst hs
  have hz : (postLoop bn (mkToxic rand) alphas s2).Pk.Z =
      zpolGo alphas.length := by
    simp [postLoop]
  rw [hz]
  have hm2 : m - 1 = alphas.length - 2 := by omega
  rw [hm2]
  exact ⟨zpolGo_toPoly alphas.length, zpolGo_monic alphas.length,
    zpolGo_natDegree alphas.length⟩

/-- C5 witness: the theorem instantiated at the concrete Nat-bundle
inputs, where len(alphas) = 3 and m = 2. -/
theorem c5_witness :
    toPoly sW.Pk.Z =
      ∏ i in Finset.Icc (1 : Nat) (2 - 1),
        (Polynomial.X - Polynomial.C (i : Fr)) ∧
    (toPoly sW.Pk.Z).Monic ∧
    (toPoly sW.Pk.Z).natDegree = 2 - 1 :=
  c5_target_polynomial bnN cirW alphasW betasW gammasW randW s0N 2 rfl
    ⟨_, rfl⟩ sW none rfl

/-- C6: when Init's loop completes, under the group law 1·G = G, the
powers-of-t base G1T has exactly deg(Z) + 1 entries and G1T[k] = tᵏ·G1
for every k (in particular G1T[0] is the generator, k = 0 giving t⁰ = 1). -/
theorem c6_g1t_powers {P1 P2 PT : Type} (bn : BnT P1 P2 PT)
    (cir : Circuit) (alphas betas gammas : List Poly) (rand : ToxicT)
    (s0 : PinocchioSetup P1 P2)
    (hone : bn.G1.MulScalar bn.G1.G 1 = bn.G1.G)
    (hdone : InitDone bn cir alphas betas gammas rand s0)
    (s : PinocchioSetup P1 P2) (e : Option ErrT)
    (hinit : Init bn cir alphas betas gammas rand s0 = some (s, e)) :
    s.G1T.length = (toPoly s.Pk.Z).natDegree + 1 ∧
    (∀ k, k < s.G1T.length →
      s.G1T[k]? = some (bn.G1.MulScalar bn.G1.G (rand.T ^ k))) := by
  obtain ⟨s2, h2⟩ := hdone
  rw [Init_done_eq bn cir alphas betas gammas rand s0 s2 h2] at hinit
  injection hinit with h3
  have hs : s = postLoop bn (mkToxic rand) alphas s2 :=
    (congrArg Prod.fst h3).symm
  subst hs
  have hz : (postLoop bn (mkToxic rand) alphas s2).Pk.Z =
      zpolGo alphas.length := by
    simp [postLoop]
  have hg : (postLoop bn (mkToxic rand) alphas s2).G1T =
      g1tGo bn.G1 (mkToxic rand).T (zpolGo alphas.length).length := by
    simp [postLoop]
  have hT : (mkToxic rand).T = rand.T := rfl
  have hL : 1 ≤ (zpolGo alphas.length).length := by
    rw [zpolGo_length]
    omega
  rw [hz, hg, hT, g1tGo_spec bn.G1 rand.T _ hone hL]
  constructor
  · simp [zpolGo_length, zpolGo_natDegree]
  · intro k hk
    simp only [List.length_map, List.length_range] at hk
    simp [List.getElem?_map, List.getElem?_range hk]

/-- C6 witness: the theorem instantiated at the concrete Nat-bundle
inputs (deg Z = 1, two entries). -/
theorem c6_witness :
    sW.G1T.length = (toPoly sW.Pk.Z).natDegree + 1 ∧
    (∀ k, k < sW.G1T.length →
      sW.G1T[k]? = some (bnN.G1.MulScalar bnN.G1.G (randW.T ^ k))) :=
  c6_g1t_powers bnN cirW alphasW betasW gammasW randW s0N (by decide)
    ⟨_, rfl⟩ sW none rfl

/-- C2: on a witness polynomial px that the target polynomial x − 1 does
not divide (remainder 1 ≠ 0), Generate still returns a proof with a nil
error: the InvalidWitness failure the spec requires does not exist in the
code (pinocchio.go lines 208-213 ignore the remainder). -/
theorem c2_no_invalid_witness_error :
    PF.normPoly (PF.polyDivMod [1] [-(1 : Fr), 1]).2 ≠ ([] : Poly) ∧
    (Generate bnN sC2 cir0 [] [1]).map (fun r => r.2) = some none := by
  constructor
  · decide
  · rfl

/-- C9 counterexample: Generate called with a witness shorter than NVars
does not return an InvalidArgument error — it hits an out-of-range index
(a Go panic, modelled as none); Verify with more public signals than
vk.IC can serve likewise panics instead of returning an error. -/
theorem c9_counterexample :
    Generate bnN sW cirW [] [] = none ∧
    Verify bnV sV (ProofW.pinocchio pfW) [0, 0] = none := by
  constructor
  · rfl
  · rfl

/-- C9 (amended): neither Generate nor Verify validates argument lengths:
Generate never returns an error at all (a too-short witness makes it panic,
modelled as none; a too-long one is silently accepted), and Verify on a
well-formed Pinocchio proof never returns an error either, whatever the
length of publicSignals. -/
theorem c9_no_invalid_argument {P1 P2 PT : Type} (bn : BnT P1 P2 PT)
    (setup : PinocchioSetup P1 P2) (cir : Circuit) (w : List Fr) (px : Poly) :
    (∀ r : PinocchioProof P1 P2 × Option ErrT,
      Generate bn setup cir w px = some r → r.2 = none) ∧
    (w.length < cir.NVars → Generate bn setup cir w px = none) ∧
    (∀ (p : PinocchioProof P1 P2) (sigs : List Fr) (r : Bool × Option ErrT),
      Verify bn setup (ProofW.pinocchio p) sigs = some r → r.2 = none) := by
  refine ⟨fun r h => generate_err_none bn setup cir w px r h, ?_, ?_⟩
  · intro hlen
    rcases hAB : loopAB bn setup.Pk.A setup.Pk.Ap w
        (List.range' (cir.NPublic + 1) (cir.NVars - (cir.NPublic + 1)))
        (bn.G1.FZero, bn.G1.FZero) with _ | ab
    · simp [Generate, hAB]
    · obtain ⟨piA, piAp⟩ := ab
      rcases hM : loopMain bn setup.Pk.B setup.Pk.Bp setup.Pk.C setup.Pk.Cp
          setup.Pk.Kp w (List.range cir.NVars)
          (bn.Fq6Zero, bn.G1.FZero, bn.G1.FZero, bn.G1.FZero, bn.G1.FZero)
          with _ | m5
      · simp [Generate, hAB, hM]
      · exfalso
        have hlt := loopMain_some_lt bn setup.Pk.B setup.Pk.Bp setup.Pk.C
          setup.Pk.Cp setup.Pk.Kp w (List.range cir.NVars) _ m5 hM
          w.length (List.mem_range.mpr hlen)
        exact lt_irrefl _ hlt
  · intro p sigs r h
    exact verify_pinocchio_err_none bn setup p sigs r h

end GoSnark
